import Mathlib

/-!
Verification of the linux-do-py CLI against its specification.

The development shallowly embeds the two source files:

* `src/linux_do_py/cli.py` — the content-normalization pipeline
  `_clean_post_html` (three `re.sub` stages, a blank-line-collapse loop,
  a leading `.strip()`), the display helpers `_relative_time` and
  `_format_count`, and the row slicing of `_render_topics`;
* `src/linux_do_py/api.py` — `Topic.from_dict`, the permissive
  constructor over an untyped JSON object.

Strings are modelled as `List Char` (wrapped into `String` at the
boundaries).  Each specific regular expression of the source is embedded
as a dedicated matcher together with one shared scanner `scanGo` that
mirrors `re.sub`: leftmost match, emit the replacement, resume right
after the matched span.  The HTML-to-markdown conversion performed by the
third-party `markdownify` library is not code of this repository; it is
taken as a function parameter `md` of `clean_post_html`.

Python peculiarities kept by the model: `str.strip` / `\s` whitespace
(restricted to its ASCII members, the only ones the claims exercise),
floor division `//` as `Int.fdiv`, `f"{x:.1f}"` as correctly-rounded
IEEE-754 double division followed by round-half-even decimal formatting
(`fmt1fNat`), and list slicing `l[:k]` including its negative-index
meaning (`pySliceTo`).
-/

/-! ## Python whitespace and `str.strip` -/

/-- Whitespace as Python's `str.strip` and `re` class `\s` see it,
restricted to the ASCII members. -/
def isPySpace (c : Char) : Bool :=
  c == ' ' || c == '\t' || c == '\n' || c == '\r' || c == '\x0b' || c == '\x0c'

/-- Python `str.strip()` on a list of characters. -/
def pyStripL (l : List Char) : List Char :=
  ((l.dropWhile isPySpace).reverse.dropWhile isPySpace).reverse

/-- Python `str.strip()`. -/
def pyStrip (s : String) : String := ⟨pyStripL s.data⟩

/-! ## Shared scanning infrastructure for the `re.sub` stages

A matcher takes the input suffix and, when the pattern matches at its
head, returns the replacement text and the suffix after the matched
span.  `scanGo` is `re.sub`: it tries the matcher at every position from
the left, emits replacements, and resumes scanning right after each
match (never inside a replacement).  Fuel is the length of the input;
every match of the three matchers below consumes at least one character,
so this fuel is enough (`scanGo_fuel` makes results fuel-independent). -/

/-- Consume an expected literal character sequence. -/
def expectLit : List Char → List Char → Option (List Char)
  | [], l => some l
  | _ :: _, [] => none
  | c :: cs, d :: ds => if c = d then expectLit cs ds else none

/-- Split at the first occurrence of `target`: `some (before, after)`,
neither part containing the delimiter occurrence.  `none` when `target`
does not occur.  This is how a regex piece `[^t]*` followed by the
literal `t` consumes input. -/
def splitAtChar (target : Char) : List Char → Option (List Char × List Char)
  | [] => none
  | c :: rest =>
    if c = target then some ([], rest)
    else
      match splitAtChar target rest with
      | some (a, b) => some (c :: a, b)
      | none => none

/-- Does the text contain a width-by-height token, i.e. a digit,
then `x` or `×`, then a digit (the core of `\d+[×x]\d+`)? -/
def hasDimToken : List Char → Bool
  | a :: b :: c :: rest =>
    (a.isDigit && (b == 'x' || b == '×') && c.isDigit) || hasDimToken (b :: c :: rest)
  | _ => false

/-- The suffix after the last newline of the list, when it has one.
This is how the greedy `\s*\n` at the end of the upload-line pattern
settles: it consumes up to the last `\n` of a whitespace run. -/
def afterLastNl : List Char → Option (List Char)
  | [] => none
  | c :: rest =>
    match afterLastNl rest with
    | some t => some t
    | none => if c = '\n' then some rest else none

/-- The replacement text of the dimension-caption stage. -/
def imageLit : List Char := ['[', 'i', 'm', 'a', 'g', 'e', ']']

/-- Matcher for `\[([^\]]*?\d+[×x]\d+[^\]]*?)\]\([^)]+\)` (the
dimension-caption image link).  The lazy label pieces exclude `]`, so
the label is exactly the text up to the first `]`; the group matches iff
that label contains a digit-`x`-digit token; the URL piece `[^)]+` is
nonempty and runs to the first `)`. -/
def matchDim (l : List Char) : Option (List Char × List Char) :=
  match l with
  | [] => none
  | c :: rest =>
    if c = '[' then
      match splitAtChar ']' rest with
      | none => none
      | some (label, afterLb) =>
        if hasDimToken label then
          match afterLb with
          | [] => none
          | a :: rest2 =>
            if a = '(' then
              match splitAtChar ')' rest2 with
              | some (url, afterUrl) => if url = [] then none else some (imageLit, afterUrl)
              | none => none
            else none
        else none
    else none

/-- Matcher for `\[\s*\]\([^)]+\)` (the empty-label link).  `\s*`
cannot contain `]`, so the bracket pair must hold whitespace only. -/
def matchEmptyLabel (l : List Char) : Option (List Char × List Char) :=
  match l with
  | [] => none
  | c :: rest =>
    if c = '[' then
      match rest.dropWhile isPySpace with
      | [] => none
      | a :: rest1 =>
        if a = ']' then
          match rest1 with
          | [] => none
          | b :: rest2 =>
            if b = '(' then
              match splitAtChar ')' rest2 with
              | some (url, afterUrl) => if url = [] then none else some ([], afterUrl)
              | none => none
            else none
        else none
    else none

/-- Literal head `(http` of the upload-URL pattern. -/
def uploadsHead : List Char := ['(', 'h', 't', 't', 'p']

/-- Literal `://linux.do/uploads/` of the upload-URL pattern. -/
def uploadsRest : List Char :=
  [':', '/', '/', 'l', 'i', 'n', 'u', 'x', '.', 'd', 'o', '/', 'u', 'p', 'l', 'o', 'a', 'd', 's', '/']

/-- Consume `\(https?://linux\.do/uploads/`: the literal `(http`, an
optional `s` (no backtracking is lost: `://` cannot start with `s`),
then the rest of the literal. -/
def matchProto (l : List Char) : Option (List Char) :=
  match expectLit uploadsHead l with
  | none => none
  | some r =>
    match r with
    | [] => expectLit uploadsRest r
    | a :: rr => if a = 's' then expectLit uploadsRest rr else expectLit uploadsRest r

/-- Matcher for `\n\s*\(https?://linux\.do/uploads/[^)]+\)\s*\n` with
replacement `\n`.  The leading greedy `\s*` must end exactly where the
`(` sits (a `(` cannot occur inside a whitespace run); the trailing
`\s*\n` consumes up to the last `\n` of the whitespace run after `)`. -/
def matchUpl (l : List Char) : Option (List Char × List Char) :=
  match l with
  | c :: rest =>
    if c = '\n' then
      match matchProto (rest.dropWhile isPySpace) with
      | none => none
      | some r2 =>
        match splitAtChar ')' r2 with
        | none => none
        | some (url, rest3) =>
          if url = [] then none
          else
            match afterLastNl (rest3.takeWhile isPySpace) with
            | none => none
            | some after => some (['\n'], after ++ rest3.dropWhile isPySpace)
    else none
  | [] => none

/-- The `re.sub` scan: at each position try the matcher; on a match emit
the replacement and resume after the matched span, otherwise copy one
character. -/
def scanGo (m : List Char → Option (List Char × List Char)) : Nat → List Char → List Char
  | 0, l => l
  | _ + 1, [] => []
  | f + 1, c :: rest =>
    match m (c :: rest) with
    | some (rep, t) => rep ++ scanGo m f t
    | none => c :: scanGo m f rest

/-- Stage 2 of `_clean_post_html`:
`re.sub(r"\[([^\]]*?\d+[×x]\d+[^\]]*?)\]\([^)]+\)", r"[image]", text)`. -/
def subDimCaptionL (l : List Char) : List Char := scanGo matchDim l.length l

/-- Stage 2 on strings. -/
def subDimCaption (s : String) : String := ⟨subDimCaptionL s.data⟩

/-- Stage 3 of `_clean_post_html`: `re.sub(r"\[\s*\]\([^)]+\)", "", text)`. -/
def subEmptyLinkL (l : List Char) : List Char := scanGo matchEmptyLabel l.length l

/-- Stage 3 on strings. -/
def subEmptyLink (s : String) : String := ⟨subEmptyLinkL s.data⟩

/-- Stage 4 of `_clean_post_html`:
`re.sub(r"\n\s*\(https?://linux\.do/uploads/[^)]+\)\s*\n", "\n", text)`. -/
def subUploadLineL (l : List Char) : List Char := scanGo matchUpl l.length l

/-- Stage 4 on strings. -/
def subUploadLine (s : String) : String := ⟨subUploadLineL s.data⟩

/-! ## The blank-line-collapse loop -/

/-- One pass of `text.replace("\n\n\n", "\n\n")`: non-overlapping,
left to right, each occurrence shrunk by one character. -/
def replaceTriples : List Char → List Char
  | [] => []
  | [a] => [a]
  | [a, b] => [a, b]
  | a :: b :: c :: rest =>
    if a = '\n' ∧ b = '\n' ∧ c = '\n' then '\n' :: '\n' :: replaceTriples rest
    else a :: replaceTriples (b :: c :: rest)

/-- `"\n\n\n" in text` of the loop guard. -/
def containsTriple : List Char → Bool
  | a :: b :: c :: rest =>
    if a = '\n' ∧ b = '\n' ∧ c = '\n' then true else containsTriple (b :: c :: rest)
  | _ => false

/-- The `while "\n\n\n" in text` loop.  Each pass with an occurrence
strictly shrinks the text, so length-many passes reach the fixpoint. -/
def collapseGo : Nat → List Char → List Char
  | 0, l => l
  | f + 1, l => if containsTriple l then collapseGo f (replaceTriples l) else l

/-- The blank-line-collapse loop on strings. -/
def collapseNl (s : String) : String := ⟨collapseGo s.data.length s.data⟩

/-! ## The full pipeline -/

/-- `_clean_post_html` with the external `markdownify(_, strip=["img"])`
conversion as the parameter `md`: the converted text is stripped, the
three regex stages run in order, and the blank-line loop collapses the
result.  Note the source strips only once, before the regex stages. -/
def clean_post_html (md : String → String) (cooked : String) : String :=
  collapseNl (subUploadLine (subEmptyLink (subDimCaption (pyStrip (md cooked)))))

/-! ## `_relative_time` -/

/-- `_relative_time`, with the current instant `now` and the
`datetime.fromisoformat`-based parse (an external stdlib call) as
parameters, both in whole epoch seconds.  `parseIso` returning `none`
stands for the caught `ValueError`/`TypeError`; Python `//` is floor
division, `Int.fdiv`. -/
def relative_time (now : Int) (parseIso : String → Option Int) (iso : String) : String :=
  if iso = "" then ""
  else
    match parseIso iso with
    | none => iso.take 10
    | some t =>
      let secs := now - t
      if secs < 60 then toString secs ++ "s"
      else if secs < 3600 then toString (secs.fdiv 60) ++ "m"
      else if secs < 86400 then toString (secs.fdiv 3600) ++ "h"
      else toString (secs.fdiv 86400) ++ "d"

/-- The spec's rendering of an elapsed duration: the single largest
applicable unit, integer floor division, no multi-unit composition. -/
def renderUnit (secs : Int) : String :=
  if secs < 60 then toString secs ++ "s"
  else if secs < 3600 then toString (secs.fdiv 60) ++ "m"
  else if secs < 86400 then toString (secs.fdiv 3600) ++ "h"
  else toString (secs.fdiv 86400) ++ "d"

/-! ## `_format_count` and the `.1f` float formatting

`f"{n / 1000:.1f}"` divides two ints into an IEEE-754 double
(correctly rounded, round-half-even) and formats that double's exact
value to one decimal, again round-half-even.  Both roundings are
reproduced exactly in integer arithmetic; subnormals and overflow are
outside the range the function is called with and are not modelled. -/

/-- Round `a / b` to the nearest integer, ties to even (`b ≠ 0`). -/
def rne (a b : Nat) : Nat :=
  let q := a / b
  let r := a % b
  if 2 * r < b then q else if b < 2 * r then q + 1 else if q % 2 = 0 then q else q + 1

/-- Find the binary exponent `e` with `1000·2^e ≤ n < 1000·2^(e+1)`,
i.e. `2^e ≤ n/1000 < 2^(e+1)`, for `n ≥ 1000` (fuel-bounded upward
search; 1100 covers every finite double). -/
def findExpGo (n : Nat) : Nat → Nat → Nat
  | 0, e => e
  | f + 1, e => if 1000 * 2 ^ (e + 1) ≤ n then findExpGo n f (e + 1) else e

/-- The exponent of the double `n / 1000` for `n ≥ 1000`. -/
def findExp (n : Nat) : Nat := findExpGo n 1100 0

/-- `f"{n / 1000:.1f}"` for `n ≥ 1000`: round `n/1000` to the nearest
double (53-bit significand, half-even), then render that double to one
decimal (half-even). -/
def fmt1fNat (n : Nat) : String :=
  let e := findExp n
  let sig := if e ≤ 52 then rne (n * 2 ^ (52 - e)) 1000 else rne n (1000 * 2 ^ (e - 52))
  let sig2 := if sig = 2 ^ 53 then 2 ^ 52 else sig
  let e2 := if sig = 2 ^ 53 then e + 1 else e
  let N := if e2 ≤ 52 then rne (sig2 * 10) (2 ^ (52 - e2)) else sig2 * 2 ^ (e2 - 52) * 10
  toString (N / 10) ++ "." ++ toString (N % 10)

/-- `_format_count`, branch for branch: the `n >= 10000` and
`n >= 1000` branches return the same f-string. -/
def format_count (n : Int) : String :=
  if 10000 ≤ n then fmt1fNat n.toNat ++ "k"
  else if 1000 ≤ n then fmt1fNat n.toNat ++ "k"
  else toString n

/-- The two-case definition the redundancy claim compares against
(written from the claim's words). -/
def formatCountSimple (n : Int) : String :=
  if 1000 ≤ n then fmt1fNat n.toNat ++ "k"
  else toString n

/-- One-decimal rounding of `n / 1000` by exact decimal arithmetic,
half away from zero (one reading of "standard one-decimal rounding",
written from the claim's words). -/
def stdRound1HalfUp (n : Nat) : String :=
  let N := n / 100 + (if 50 ≤ n % 100 then 1 else 0)
  toString (N / 10) ++ "." ++ toString (N % 10)

/-- One-decimal rounding of `n / 1000` by exact decimal arithmetic,
ties to even (the other reading of "standard one-decimal rounding",
written from the claim's words). -/
def stdRound1HalfEven (n : Nat) : String :=
  let q := n / 100
  let r := n % 100
  let N := if r < 50 then q else if 50 < r then q + 1 else if q % 2 = 0 then q else q + 1
  toString (N / 10) ++ "." ++ toString (N % 10)

/-! ## JSON values and `Topic.from_dict` -/

/-- An untyped JSON value as `json.loads` yields it (numbers restricted
to integers, all the API fields carry). -/
inductive JValue where
  | null
  | bool (b : Bool)
  | num (n : Int)
  | str (s : String)
  | arr (l : List JValue)
  | obj (fields : List (String × JValue))

/-- The exceptions `Topic.from_dict` can raise. -/
inductive PyErr where
  | keyError (k : String)
  | typeError
  deriving DecidableEq, Repr

/-- First binding of a key in a JSON object's field list. -/
def lookupKey : List (String × JValue) → String → Option JValue
  | [], _ => none
  | (k1, v) :: rest, k => if k1 = k then some v else lookupKey rest k

/-- Python `d[k]`: `KeyError` when absent. -/
def getKey (d : List (String × JValue)) (k : String) : Except PyErr JValue :=
  match lookupKey d k with
  | some v => Except.ok v
  | none => Except.error (PyErr.keyError k)

/-- Python `d.get(k, dflt)`. -/
def getD (d : List (String × JValue)) (k : String) (dflt : JValue) : JValue :=
  (lookupKey d k).getD dflt

/-- Python iteration over a JSON value: lists yield elements, strings
yield one-character strings, dicts yield their keys; `None`, booleans
and numbers raise `TypeError`. -/
def pyIter : JValue → Except PyErr (List JValue)
  | JValue.arr l => Except.ok l
  | JValue.str s => Except.ok (s.data.map fun c => JValue.str ⟨[c]⟩)
  | JValue.obj fs => Except.ok (fs.map fun p => JValue.str p.1)
  | _ => Except.error PyErr.typeError

/-- `t["name"] if isinstance(t, dict) else t` of the tag comprehension. -/
def nameOf (t : JValue) : Except PyErr JValue :=
  match t with
  | JValue.obj fs =>
    match lookupKey fs "name" with
    | some v => Except.ok v
    | none => Except.error (PyErr.keyError "name")
  | _ => Except.ok t

/-- `[t["name"] if isinstance(t, dict) else t for t in d.get("tags", [])]`. -/
def tagsOf (d : List (String × JValue)) : Except PyErr (List JValue) :=
  match pyIter (getD d "tags" (JValue.arr [])) with
  | Except.error e => Except.error e
  | Except.ok l => l.mapM nameOf

/-- The `Topic` dataclass as `from_dict` builds it: Python performs no
runtime type check, so every field holds whatever JSON value was
extracted. -/
structure Topic where
  id : JValue
  title : JValue
  slug : JValue
  category_id : JValue
  views : JValue
  posts_count : JValue
  reply_count : JValue
  like_count : JValue
  created_at : JValue
  last_posted_at : JValue
  last_poster_username : JValue
  pinned : JValue
  excerpt : JValue
  tags : List JValue
  op_like_count : JValue
  has_accepted_answer : JValue

/-- `Topic.from_dict`: `d["id"]` and `d["title"]` are mandatory
subscripts (KeyError when absent), everything else defaults through
`d.get`; the tag comprehension is the third place able to raise. -/
def Topic.from_dict (d : List (String × JValue)) : Except PyErr Topic :=
  match getKey d "id" with
  | Except.error e => Except.error e
  | Except.ok idv =>
    match getKey d "title" with
    | Except.error e => Except.error e
    | Except.ok titlev =>
      match tagsOf d with
      | Except.error e => Except.error e
      | Except.ok tagsv =>
        Except.ok
          { id := idv
            title := titlev
            slug := getD d "slug" (JValue.str "topic")
            category_id := getD d "category_id" (JValue.num 0)
            views := getD d "views" (JValue.num 0)
            posts_count := getD d "posts_count" (JValue.num 0)
            reply_count := getD d "reply_count" (JValue.num 0)
            like_count := getD d "like_count" (JValue.num 0)
            created_at := getD d "created_at" (JValue.str "")
            last_posted_at := getD d "last_posted_at" (JValue.str "")
            last_poster_username := getD d "last_poster_username" (JValue.str "")
            pinned := getD d "pinned" (JValue.bool false)
            excerpt := getD d "excerpt" (JValue.str "")
            tags := tagsv
            op_like_count := getD d "op_like_count" (JValue.num 0)
            has_accepted_answer := getD d "has_accepted_answer" (JValue.bool false) }

/-! ## `_render_topics` -/

/-- A topic record with the dataclass's declared field types — the
validly-typed view the listing formatter consumes. -/
structure TopicRec where
  id : Int
  title : String
  slug : String
  category_id : Int
  views : Int
  posts_count : Int
  reply_count : Int
  like_count : Int
  created_at : String
  last_posted_at : String
  last_poster_username : String
  pinned : Bool
  excerpt : String
  tags : List String
  op_like_count : Int
  has_accepted_answer : Bool

/-- The text of the title cell: the title, then up to the first three
tags as bracketed tokens (pinned only changes styling, not text). -/
def titleCell (t : TopicRec) : String :=
  t.title ++
    (if t.tags = [] then ""
     else " " ++ String.intercalate " " ((t.tags.take 3).map fun tag => "[" ++ tag ++ "]"))

/-- One table row of `_render_topics`: ID, title, views, likes,
replies, activity. -/
def rowOf (now : Int) (parseIso : String → Option Int) (t : TopicRec) : List String :=
  [toString t.id, titleCell t, format_count t.views, format_count t.like_count,
    format_count t.reply_count, relative_time now parseIso t.last_posted_at]

/-- Python `l[:k]`, including the negative-stop meaning
`max(len(l) + k, 0)`. -/
def pySliceTo {α : Type} (l : List α) (k : Int) : List α :=
  if 0 ≤ k then l.take k.toNat else l.take (l.length - (-k).toNat)

/-- `_render_topics` reduced to the rows it draws: the function first
rebinds `topics = topics[:limit]` and then renders each record in
order.  (The `--json` branch slices identically; the `rich` table
drawing is presentation glue.) -/
def render_topics (now : Int) (parseIso : String → Option Int)
    (topics : List TopicRec) (limit : Int) : List (List String) :=
  (pySliceTo topics limit).map (rowOf now parseIso)

/-- A concrete topic record used by closed witnesses. -/
def sampleTopic : TopicRec :=
  { id := 1, title := "a", slug := "a", category_id := 0, views := 5, posts_count := 1,
    reply_count := 0, like_count := 2, created_at := "", last_posted_at := "",
    last_poster_username := "u", pinned := false, excerpt := "", tags := [],
    op_like_count := 0, has_accepted_answer := false }

/-- A second concrete topic record used by closed witnesses. -/
def sampleTopic2 : TopicRec :=
  { id := 2, title := "b", slug := "b", category_id := 0, views := 7, posts_count := 1,
    reply_count := 1, like_count := 0, created_at := "", last_posted_at := "",
    last_poster_username := "v", pinned := true, excerpt := "", tags := ["t"],
    op_like_count := 0, has_accepted_answer := false }

/-! ## Scanner lemmas -/

theorem scanGo_nil (m : List Char → Option (List Char × List Char)) (f : Nat) :
    scanGo m f [] = [] := by
  cases f <;> rfl

theorem scanGo_cons_none (m : List Char → Option (List Char × List Char)) (f : Nat)
    (c : Char) (rest : List Char) (h : m (c :: rest) = none) :
    scanGo m (f + 1) (c :: rest) = c :: scanGo m f rest := by
  simp only [scanGo, h]

theorem scanGo_cons_some (m : List Char → Option (List Char × List Char)) (f : Nat)
    (c : Char) (rest rep t : List Char) (h : m (c :: rest) = some (rep, t)) :
    scanGo m (f + 1) (c :: rest) = rep ++ scanGo m f t := by
  simp only [scanGo, h]

theorem dropWhile_length_le (p : Char → Bool) (l : List Char) :
    (l.dropWhile p).length ≤ l.length := by
  induction l with
  | nil => simp
  | cons c rest ih =>
    rw [List.dropWhile_cons]
    split
    · exact Nat.le_trans ih (by simp)
    · simp

theorem splitAtChar_length {tc : Char} :
    ∀ {l a b : List Char}, splitAtChar tc l = some (a, b) →
      l.length = a.length + 1 + b.length := by
  intro l
  induction l with
  | nil => intro a b h; simp [splitAtChar] at h
  | cons c rest ih =>
    intro a b h
    unfold splitAtChar at h
    split at h
    · simp only [Option.some.injEq, Prod.mk.injEq] at h
      obtain ⟨ha, hb⟩ := h
      subst ha; subst hb; simp; omega
    · split at h
      · simp only [Option.some.injEq, Prod.mk.injEq] at h
        obtain ⟨ha, hb⟩ := h
        subst ha; subst hb
        rename_i a' b' heq
        have := ih heq
        simp [this]; omega
      · simp at h

theorem expectLit_length :
    ∀ {lit l r : List Char}, expectLit lit l = some r → r.length ≤ l.length := by
  intro lit
  induction lit with
  | nil =>
    intro l r h
    simp only [expectLit, Option.some.injEq] at h
    subst h; exact Nat.le_refl _
  | cons c cs ih =>
    intro l r h
    cases l with
    | nil => simp [expectLit] at h
    | cons d ds =>
      unfold expectLit at h
      split at h
      · exact Nat.le_trans (ih h) (by simp)
      · simp at h

theorem afterLastNl_length :
    ∀ {l a : List Char}, afterLastNl l = some a → a.length < l.length := by
  intro l
  induction l with
  | nil => intro a h; simp [afterLastNl] at h
  | cons c rest ih =>
    intro a h
    unfold afterLastNl at h
    split at h
    · rename_i t heq
      simp only [Option.some.injEq] at h
      subst h
      exact Nat.lt_trans (ih heq) (by simp)
    · split at h
      · simp only [Option.some.injEq] at h
        subst h; simp
      · simp at h

theorem matchProto_length {l r : List Char} (h : matchProto l = some r) :
    r.length ≤ l.length := by
  unfold matchProto at h
  split at h
  · simp at h
  · rename_i r1 heq1
    have h1 := expectLit_length heq1
    split at h
    · exact Nat.le_trans (expectLit_length h) h1
    · split at h
      · rename_i a rr ha
        have h2 := expectLit_length h
        subst ha
        simp at h1
        omega
      · exact Nat.le_trans (expectLit_length h) h1

theorem matchDim_shrink :
    ∀ {l r t : List Char}, matchDim l = some (r, t) → t.length < l.length := by
  intro l r t h
  cases l with
  | nil => simp [matchDim] at h
  | cons c rest =>
    simp only [matchDim] at h
    split at h
    · split at h
      · simp at h
      · rename_i label afterLb heq1
        split at h
        · split at h
          · simp at h
          · split at h
            · split at h
              · rename_i url afterUrl heq3
                split at h
                · simp at h
                · simp only [Option.some.injEq, Prod.mk.injEq] at h
                  obtain ⟨_, hb⟩ := h
                  subst hb
                  have l1 := splitAtChar_length heq1
                  have l2 := splitAtChar_length heq3
                  simp only [List.length_cons] at l1 ⊢
                  omega
              · simp at h
            · simp at h
        · simp at h
    · simp at h

theorem matchUpl_shrink :
    ∀ {l r t : List Char}, matchUpl l = some (r, t) → t.length < l.length := by
  intro l r t h
  cases l with
  | nil => simp [matchUpl] at h
  | cons c rest =>
    simp only [matchUpl] at h
    split at h
    · split at h
      · simp at h
      · rename_i r2 heq1
        split at h
        · simp at h
        · rename_i url rest3 heq2
          split at h
          · simp at h
          · split at h
            · simp at h
            · rename_i after heq3
              simp only [Option.some.injEq, Prod.mk.injEq] at h
              obtain ⟨_, hb⟩ := h
              subst hb
              have l1 := matchProto_length heq1
              have l2 := splitAtChar_length heq2
              have l3 := afterLastNl_length heq3
              have l4 : (rest.dropWhile isPySpace).length ≤ rest.length :=
                dropWhile_length_le _ _
              have l5 : rest3.takeWhile isPySpace ++ rest3.dropWhile isPySpace = rest3 :=
                List.takeWhile_append_dropWhile isPySpace rest3
              have l6 : (rest3.takeWhile isPySpace).length
                  + (rest3.dropWhile isPySpace).length = rest3.length := by
                rw [← List.length_append, l5]
              simp only [List.length_append, List.length_cons]
              omega
    · simp at h

theorem scanGo_fuel (m : List Char → Option (List Char × List Char))
    (hm : ∀ l r t, m l = some (r, t) → t.length < l.length) :
    ∀ (f : Nat) (l : List Char) (g : Nat), l.length ≤ f → l.length ≤ g →
      scanGo m f l = scanGo m g l := by
  intro f
  induction f with
  | zero =>
    intro l g hf hg
    have : l = [] := List.length_eq_zero.mp (Nat.le_zero.mp hf)
    subst this
    rw [scanGo_nil, scanGo_nil]
  | succ f ih =>
    intro l g hf hg
    cases l with
    | nil => rw [scanGo_nil, scanGo_nil]
    | cons c rest =>
      cases g with
      | zero => simp at hg
      | succ g' =>
        cases h : m (c :: rest) with
        | some rt =>
          obtain ⟨r, t⟩ := rt
          have ht := hm _ _ _ h
          simp only [List.length_cons] at ht hf hg
          rw [scanGo_cons_some m f c rest r t h, scanGo_cons_some m g' c rest r t h]
          rw [ih t g' (by omega) (by omega)]
        | none =>
          simp only [List.length_cons] at hf hg
          rw [scanGo_cons_none m f c rest h, scanGo_cons_none m g' c rest h]
          rw [ih rest g' (by omega) (by omega)]

theorem scanGo_skip (m : List Char → Option (List Char × List Char))
    (hm : ∀ l r t, m l = some (r, t) → t.length < l.length) :
    ∀ (pre l : List Char) (f : Nat),
      (∀ c, c ∈ pre → ∀ rest, m (c :: rest) = none) →
      (pre ++ l).length ≤ f →
      scanGo m f (pre ++ l) = pre ++ scanGo m l.length l := by
  intro pre
  induction pre with
  | nil =>
    intro l f _ hf
    simpa using scanGo_fuel m hm f l l.length (by simpa using hf) (Nat.le_refl _)
  | cons c pre' ih =>
    intro l f hnone hf
    cases f with
    | zero => simp at hf
    | succ f' =>
      have hc : m (c :: (pre' ++ l)) = none := hnone c (List.mem_cons_self _ _) _
      rw [List.cons_append, scanGo_cons_none m f' c (pre' ++ l) hc,
        ih l f' (fun d hd rest => hnone d (List.mem_cons_of_mem _ hd) rest)
          (by simp only [List.cons_append, List.length_cons] at hf; omega),
        List.cons_append]

theorem expectLit_append (lit r : List Char) : expectLit lit (lit ++ r) = some r := by
  induction lit with
  | nil => rfl
  | cons c cs ih => simp [expectLit, ih]

theorem splitAtChar_append {tc : Char} {a : List Char} (b : List Char) (ha : tc ∉ a) :
    splitAtChar tc (a ++ tc :: b) = some (a, b) := by
  induction a with
  | nil => simp [splitAtChar]
  | cons c a' ih =>
    have hc : c ≠ tc := by
      intro hh
      exact ha (hh ▸ List.mem_cons_self _ _)
    have ha' : tc ∉ a' := fun hmem => ha (List.mem_cons_of_mem _ hmem)
    simp only [List.cons_append]
    unfold splitAtChar
    rw [if_neg hc, ih ha']

theorem afterLastNl_eq_none {l : List Char} (h : '\n' ∉ l) : afterLastNl l = none := by
  induction l with
  | nil => rfl
  | cons c rest ih =>
    have hc : c ≠ '\n' := by
      intro hh
      exact h (hh ▸ List.mem_cons_self _ _)
    have h' : '\n' ∉ rest := fun hmem => h (List.mem_cons_of_mem _ hmem)
    unfold afterLastNl
    rw [ih h', if_neg hc]

theorem afterLastNl_cons_nl {l : List Char} (h : '\n' ∉ l) :
    afterLastNl ('\n' :: l) = some l := by
  unfold afterLastNl
  rw [afterLastNl_eq_none h, if_pos rfl]

theorem matchDim_eq_none {c : Char} (rest : List Char) (hc : c ≠ '[') :
    matchDim (c :: rest) = none := by
  simp [matchDim, hc]

theorem matchUpl_eq_none {c : Char} (rest : List Char) (hc : c ≠ '\n') :
    matchUpl (c :: rest) = none := by
  simp [matchUpl, hc]

theorem matchDim_match {label url post : List Char} (hl : ']' ∉ label)
    (hd : hasDimToken label = true) (hu1 : url ≠ []) (hu2 : ')' ∉ url) :
    matchDim ('[' :: (label ++ ']' :: '(' :: (url ++ ')' :: post)))
      = some (imageLit, post) := by
  have h1 : splitAtChar ']' (label ++ ']' :: '(' :: (url ++ ')' :: post))
      = some (label, '(' :: (url ++ ')' :: post)) := splitAtChar_append _ hl
  have h2 : splitAtChar ')' (url ++ ')' :: post) = some (url, post) :=
    splitAtChar_append _ hu2
  simp [matchDim, h1, hd, h2, hu1]

theorem matchUpl_match {url post : List Char} (hu1 : url ≠ []) (hu2 : ')' ∉ url)
    (hpost : '\n' ∉ post.takeWhile isPySpace) :
    matchUpl ('\n' :: (uploadsHead ++ 's' :: (uploadsRest ++ (url ++ ')' :: '\n' :: post))))
      = some (['\n'], post) := by
  have hdrop : (uploadsHead ++ 's' :: (uploadsRest ++ (url ++ ')' :: '\n' :: post))).dropWhile
      isPySpace = uploadsHead ++ 's' :: (uploadsRest ++ (url ++ ')' :: '\n' :: post)) := rfl
  have hproto : matchProto (uploadsHead ++ 's' :: (uploadsRest ++ (url ++ ')' :: '\n' :: post)))
      = some (url ++ ')' :: '\n' :: post) := by
    unfold matchProto
    rw [expectLit_append]
    simp [expectLit_append]
  have hsplit : splitAtChar ')' (url ++ ')' :: '\n' :: post) = some (url, '\n' :: post) :=
    splitAtChar_append _ hu2
  have htake : ('\n' :: post).takeWhile isPySpace = '\n' :: post.takeWhile isPySpace := rfl
  have hdrop2 : ('\n' :: post).dropWhile isPySpace = post.dropWhile isPySpace := rfl
  have hlast : afterLastNl (('\n' :: post).takeWhile isPySpace)
      = some (post.takeWhile isPySpace) := by
    rw [htake]
    exact afterLastNl_cons_nl hpost
  simp [matchUpl, hdrop, hproto, hsplit, hu1, hlast, hdrop2,
    List.takeWhile_append_dropWhile]

/-! ## Blank-line-collapse lemmas -/

theorem replaceTriples_length_le (l : List Char) :
    (replaceTriples l).length ≤ l.length := by
  induction l using replaceTriples.induct with
  | case1 => simp [replaceTriples]
  | case2 a => simp [replaceTriples]
  | case3 a b => simp [replaceTriples]
  | case4 a b c rest h ih =>
    rw [replaceTriples, if_pos h]
    simp only [List.length_cons]
    omega
  | case5 a b c rest h ih =>
    rw [replaceTriples, if_neg h]
    simp only [List.length_cons] at ih ⊢
    omega

theorem replaceTriples_length_lt {l : List Char} (h : containsTriple l = true) :
    (replaceTriples l).length < l.length := by
  induction l using replaceTriples.induct with
  | case1 => simp [containsTriple] at h
  | case2 a => simp [containsTriple] at h
  | case3 a b => simp [containsTriple] at h
  | case4 a b c rest hc ih =>
    rw [replaceTriples, if_pos hc]
    have := replaceTriples_length_le rest
    simp only [List.length_cons]
    omega
  | case5 a b c rest hc ih =>
    rw [containsTriple, if_neg hc] at h
    rw [replaceTriples, if_neg hc]
    have := ih h
    simp only [List.length_cons] at this ⊢
    omega

theorem collapseGo_no_triple :
    ∀ (f : Nat) (l : List Char), l.length ≤ f →
      containsTriple (collapseGo f l) = false := by
  intro f
  induction f with
  | zero =>
    intro l hf
    have : l = [] := List.length_eq_zero.mp (Nat.le_zero.mp hf)
    subst this
    rfl
  | succ f ih =>
    intro l hf
    rw [collapseGo]
    cases h : containsTriple l with
    | true =>
      rw [if_pos rfl]
      exact ih _ (by have := replaceTriples_length_lt h; omega)
    | false =>
      rw [if_neg (by simp)]
      exact h

/-! ## Claim theorems -/

/-- Claim C1 (code bug): the pipeline is not idempotent.  On the text
`"[\n(https://linux.do/uploads/a)\n](u)"` (any post whose markdown
conversion passes it through; the conversion stage is instantiated as
the identity), the first run's upload-line stage leaves the empty-label
link `"[\n](u)"`, which the second run's empty-label stage then deletes:
re-running the pipeline on its own output is not a no-op. -/
theorem c1_clean_not_idempotent :
    clean_post_html (fun s => s) "[\n(https://linux.do/uploads/a)\n](u)" = "[\n](u)" ∧
    clean_post_html (fun s => s) "[\n](u)" = "" ∧
    clean_post_html (fun s => s)
        (clean_post_html (fun s => s) "[\n(https://linux.do/uploads/a)\n](u)")
      ≠ clean_post_html (fun s => s) "[\n(https://linux.do/uploads/a)\n](u)" :=
  ⟨by decide, by decide, by decide⟩

/-- Claim C2 (counterexample): `Topic.from_dict` does not construct a
topic from every JSON object — the empty object raises `KeyError("id")`
because `id` is read with a mandatory subscript. -/
theorem c2_from_dict_cex :
    Topic.from_dict [] = Except.error (PyErr.keyError "id") := rfl

/-- Claim C2 (amended): when `id` and `title` are present and the tag
extraction succeeds, `Topic.from_dict` succeeds, and each absent
optional key takes its zero-equivalent default: `views = 0`,
`tags = []`, `pinned = false`. -/
theorem c2_from_dict_amended (d : List (String × JValue)) (i ttl : JValue)
    (tl : List JValue) (h1 : getKey d "id" = Except.ok i)
    (h2 : getKey d "title" = Except.ok ttl) (h3 : tagsOf d = Except.ok tl) :
    (∃ t : Topic, Topic.from_dict d = Except.ok t) ∧
    (∀ t : Topic, Topic.from_dict d = Except.ok t →
      (lookupKey d "views" = none → t.views = JValue.num 0) ∧
      (lookupKey d "tags" = none → t.tags = []) ∧
      (lookupKey d "pinned" = none → t.pinned = JValue.bool false)) := by
  have hfd : Topic.from_dict d = Except.ok
      { id := i
        title := ttl
        slug := getD d "slug" (JValue.str "topic")
        category_id := getD d "category_id" (JValue.num 0)
        views := getD d "views" (JValue.num 0)
        posts_count := getD d "posts_count" (JValue.num 0)
        reply_count := getD d "reply_count" (JValue.num 0)
        like_count := getD d "like_count" (JValue.num 0)
        created_at := getD d "created_at" (JValue.str "")
        last_posted_at := getD d "last_posted_at" (JValue.str "")
        last_poster_username := getD d "last_poster_username" (JValue.str "")
        pinned := getD d "pinned" (JValue.bool false)
        excerpt := getD d "excerpt" (JValue.str "")
        tags := tl
        op_like_count := getD d "op_like_count" (JValue.num 0)
        has_accepted_answer := getD d "has_accepted_answer" (JValue.bool false) } := by
    unfold Topic.from_dict
    rw [h1, h2, h3]
  refine ⟨⟨_, hfd⟩, ?_⟩
  intro t ht
  rw [hfd] at ht
  simp only [Except.ok.injEq] at ht
  subst ht
  refine ⟨?_, ?_, ?_⟩
  · intro hv
    show getD d "views" (JValue.num 0) = JValue.num 0
    unfold getD
    rw [hv]
    rfl
  · intro htg
    have hts : tagsOf d = Except.ok [] := by
      unfold tagsOf getD
      rw [htg]
      rfl
    rw [h3] at hts
    simp only [Except.ok.injEq] at hts
    exact hts
  · intro hp
    show getD d "pinned" (JValue.bool false) = JValue.bool false
    unfold getD
    rw [hp]
    rfl

/-- Claim C2 (witness): the amended statement at the concrete object
holding only `id` and `title`. -/
theorem c2_from_dict_amended_witness :
    (∃ t : Topic, Topic.from_dict [("id", JValue.num 1), ("title", JValue.str "t")]
        = Except.ok t) ∧
    (∀ t : Topic, Topic.from_dict [("id", JValue.num 1), ("title", JValue.str "t")]
        = Except.ok t →
      (lookupKey [("id", JValue.num 1), ("title", JValue.str "t")] "views" = none →
        t.views = JValue.num 0) ∧
      (lookupKey [("id", JValue.num 1), ("title", JValue.str "t")] "tags" = none →
        t.tags = []) ∧
      (lookupKey [("id", JValue.num 1), ("title", JValue.str "t")] "pinned" = none →
        t.pinned = JValue.bool false)) :=
  c2_from_dict_amended [("id", JValue.num 1), ("title", JValue.str "t")]
    (JValue.num 1) (JValue.str "t") [] rfl rfl rfl

/-- Claim C3: `_relative_time` renders the empty string as `""`, an
unparseable timestamp as the first ten characters of the raw input
(never raising: the parse result is an `Option`), and a parsed
timestamp as the single largest applicable unit of the elapsed seconds
with floor division (`renderUnit`). -/
theorem c3_relative_time_spec :
    (∀ (now : Int) (p : String → Option Int), relative_time now p "" = "") ∧
    (∀ (now : Int) (p : String → Option Int) (iso : String),
      iso ≠ "" → p iso = none → relative_time now p iso = iso.take 10) ∧
    (∀ (now : Int) (p : String → Option Int) (iso : String) (t : Int),
      iso ≠ "" → p iso = some t → relative_time now p iso = renderUnit (now - t)) := by
  refine ⟨?_, ?_, ?_⟩
  · intro now p
    rfl
  · intro now p iso h hp
    unfold relative_time
    rw [if_neg h, hp]
  · intro now p iso t h hp
    unfold relative_time renderUnit
    rw [if_neg h, hp]

/-- Claim C3 (witness): the spec's sample points, via the theorem. -/
theorem c3_relative_time_spec_witness :
    relative_time 0 (fun _ => none) "" = "" ∧
    relative_time 0 (fun _ => none) "2024-01-01T00:00:00Z" = "2024-01-01" ∧
    relative_time 1000 (fun _ => some 955) "ts" = "45s" ∧
    relative_time 1000 (fun _ => some 910) "ts" = "1m" ∧
    relative_time 10000 (fun _ => some 2800) "ts" = "2h" ∧
    relative_time 200000 (fun _ => some 27200) "ts" = "2d" := by
  refine ⟨c3_relative_time_spec.1 0 _, ?_, ?_, ?_, ?_, ?_⟩
  · exact (c3_relative_time_spec.2.1 0 _ _ (by decide) rfl).trans (by decide)
  · exact (c3_relative_time_spec.2.2 1000 _ _ 955 (by decide) rfl).trans (by decide)
  · exact (c3_relative_time_spec.2.2 1000 _ _ 910 (by decide) rfl).trans (by decide)
  · exact (c3_relative_time_spec.2.2 10000 _ _ 2800 (by decide) rfl).trans (by decide)
  · exact (c3_relative_time_spec.2.2 200000 _ _ 27200 (by decide) rfl).trans (by decide)

/-- Claim C4 (counterexample): at `n = 1150` the code renders `"1.1k"`
(the IEEE-754 double for `1.15` lies below the decimal tie), while
standard one-decimal rounding of `1150/1000 = 1.15` yields `"1.2"`
under either tie convention. -/
theorem c4_format_count_cex :
    format_count 1150 = "1.1k" ∧ stdRound1HalfUp 1150 = "1.2" ∧
    stdRound1HalfEven 1150 = "1.2" ∧
    format_count 1150 ≠ stdRound1HalfUp 1150 ++ "k" ∧
    format_count 1150 ≠ stdRound1HalfEven 1150 ++ "k" :=
  ⟨by decide, by decide, by decide, by decide, by decide⟩

/-- Claim C4 (amended): for nonnegative `n`, `_format_count` returns the
plain decimal string below 1000 and otherwise the one-decimal rendering
of the IEEE-754 double nearest `n/1000` (both roundings half-even, as
`fmt1fNat` defines) followed by `"k"`. -/
theorem c4_format_count_amended (n : Int) (h0 : 0 ≤ n) :
    (n < 1000 → format_count n = toString n) ∧
    (1000 ≤ n → format_count n = fmt1fNat n.toNat ++ "k") := by
  constructor
  · intro h
    unfold format_count
    rw [if_neg (by omega), if_neg (by omega)]
  · intro h
    unfold format_count
    by_cases h1 : 10000 ≤ n
    · rw [if_pos h1]
    · rw [if_neg h1, if_pos h]

/-- Claim C4 (witness): the claim's sample points plus the tie point,
via the theorem. -/
theorem c4_format_count_amended_witness :
    format_count 999 = "999" ∧ format_count 1000 = "1.0k" ∧
    format_count 12345 = "12.3k" ∧ format_count 0 = "0" ∧
    format_count 1150 = "1.1k" := by
  refine ⟨?_, ?_, ?_, ?_, ?_⟩
  · exact ((c4_format_count_amended 999 (by decide)).1 (by decide)).trans (by decide)
  · exact ((c4_format_count_amended 1000 (by decide)).2 (by decide)).trans (by decide)
  · exact ((c4_format_count_amended 12345 (by decide)).2 (by decide)).trans (by decide)
  · exact ((c4_format_count_amended 0 (by decide)).1 (by decide)).trans (by decide)
  · exact ((c4_format_count_amended 1150 (by decide)).2 (by decide)).trans (by decide)

/-- Claim C5 (counterexample): with a URL containing `)` the stage keeps
part of the URL (`[^)]+` stops at the first `)`), and with an empty URL
(`[^)]+` must be nonempty) the link survives untouched — in neither
case does the link render exactly `[image]`. -/
theorem c5_dim_caption_cex :
    subDimCaption "[photo 800x600](http://e.com/a(1).png)" = "[image].png)" ∧
    subDimCaption "[photo 800x600](http://e.com/a(1).png)" ≠ "[image]" ∧
    subDimCaption "[photo 800x600]()" = "[photo 800x600]()" :=
  ⟨by decide, by decide, by decide⟩

/-- Claim C5 (amended): a markdown link whose `]`-free label contains a
digit-`x`-digit token and whose URL is nonempty and `)`-free is replaced
by the literal `[image]`, label and URL discarded, in any context whose
prefix contains no `[`; scanning then continues on the remainder. -/
theorem c5_dim_caption_amended (pre label url post : List Char)
    (hpre : '[' ∉ pre) (hl : ']' ∉ label) (hd : hasDimToken label = true)
    (hu1 : url ≠ []) (hu2 : ')' ∉ url) :
    subDimCaptionL (pre ++ '[' :: (label ++ ']' :: '(' :: (url ++ ')' :: post)))
      = pre ++ imageLit ++ subDimCaptionL post := by
  unfold subDimCaptionL
  have hfail : ∀ c, c ∈ pre → ∀ rest, matchDim (c :: rest) = none :=
    fun c hc rest => matchDim_eq_none rest (fun he => hpre (he ▸ hc))
  rw [scanGo_skip matchDim (fun l r t h => matchDim_shrink h) pre _ _ hfail (Nat.le_refl _)]
  have hmatch := @matchDim_match label url post hl hd hu1 hu2
  rw [List.length_cons, scanGo_cons_some matchDim _ _ _ _ _ hmatch]
  have hle : post.length ≤ (label ++ ']' :: '(' :: (url ++ ')' :: post)).length := by
    simp only [List.length_append, List.length_cons]
    omega
  rw [scanGo_fuel matchDim (fun l r t h => matchDim_shrink h) _ post post.length hle
    (Nat.le_refl _)]
  rw [List.append_assoc]

/-- Claim C5 (witness): the amended statement at the claim's example,
label `photo 800x600` with URL `https://u`, standing alone. -/
theorem c5_dim_caption_amended_witness :
    subDimCaptionL
        ([] ++ '[' :: ("photo 800x600".data ++ ']' :: '(' :: ("https://u".data ++ ')' :: [])))
      = [] ++ imageLit ++ subDimCaptionL [] :=
  c5_dim_caption_amended [] "photo 800x600".data "https://u".data []
    (by decide) (by decide) (by decide) (by decide) (by decide)

/-- Claim C6 (counterexample): a bare upload-URL line at the very start
of the text is not removed (the pattern demands a preceding newline),
and of two consecutive such lines only the first is removed — the match
consumes the separating newline, so scanning resumes past the second
line's required leading newline. -/
theorem c6_upload_line_cex :
    subUploadLine "(https://linux.do/uploads/a.png)\nhello"
      = "(https://linux.do/uploads/a.png)\nhello" ∧
    subUploadLine "x\n(https://linux.do/uploads/a)\n(https://linux.do/uploads/b)\ny"
      = "x\n(https://linux.do/uploads/b)\ny" :=
  ⟨by decide, by decide⟩

/-- Claim C6 (amended): a line holding only a parenthesized upload URL
(nonempty, free of `)` and of newlines here) is removed — replaced by a
single newline — when it is preceded by a newline and followed by one,
the preceding text containing no newline and the following text not
beginning with whitespace that includes a newline; scanning then
continues on the following text. -/
theorem c6_upload_line_amended (pre url post : List Char)
    (hpre : '\n' ∉ pre) (hu1 : url ≠ []) (hu2 : ')' ∉ url)
    (hpost : '\n' ∉ post.takeWhile isPySpace) :
    subUploadLineL
        (pre ++ '\n' :: (uploadsHead ++ 's' :: (uploadsRest ++ (url ++ ')' :: '\n' :: post))))
      = pre ++ '\n' :: subUploadLineL post := by
  unfold subUploadLineL
  have hfail : ∀ c, c ∈ pre → ∀ rest, matchUpl (c :: rest) = none :=
    fun c hc rest => matchUpl_eq_none rest (fun he => hpre (he ▸ hc))
  rw [scanGo_skip matchUpl (fun l r t h => matchUpl_shrink h) pre _ _ hfail (Nat.le_refl _)]
  have hmatch := matchUpl_match hu1 hu2 hpost
  rw [List.length_cons, scanGo_cons_some matchUpl _ _ _ _ _ hmatch]
  have hle : post.length
      ≤ (uploadsHead ++ 's' :: (uploadsRest ++ (url ++ ')' :: '\n' :: post))).length := by
    simp only [List.length_append, List.length_cons]
    omega
  rw [scanGo_fuel matchUpl (fun l r t h => matchUpl_shrink h) _ post post.length hle
    (Nat.le_refl _)]
  rfl

/-- Claim C6 (witness): the amended statement at a concrete instance,
`"a\n(https://linux.do/uploads/p.png)\nb"`. -/
theorem c6_upload_line_amended_witness :
    subUploadLineL
        (['a'] ++ '\n' :: (uploadsHead ++ 's' :: (uploadsRest ++ ("p.png".data ++ ')' :: '\n' :: ['b']))))
      = ['a'] ++ '\n' :: subUploadLineL ['b'] :=
  c6_upload_line_amended ['a'] "p.png".data ['b']
    (by decide) (by decide) (by decide) (by decide)

/-- Claim C7 (counterexample): with the negative limit `-1` Python's
slice `topics[:limit]` drops from the end — two topics render as one
row, not as the empty "first `min(limit, length)`" selection. -/
theorem c7_render_topics_cex :
    render_topics 0 (fun _ => none) [sampleTopic, sampleTopic2] (-1)
        = [rowOf 0 (fun _ => none) sampleTopic] ∧
    ([sampleTopic, sampleTopic2].take ((min (-1 : Int) 2).toNat)).map
        (rowOf 0 (fun _ => none)) = [] :=
  ⟨by decide, by decide⟩

/-- Claim C7 (amended): for every nonnegative limit the rendered rows
are exactly the first `min(limit, length)` records, in input order, each
mapped through the pure row function — the input list itself is never
modified (the model is a pure function of it). -/
theorem c7_render_topics_amended (now : Int) (p : String → Option Int)
    (topics : List TopicRec) (limit : Int) (h : 0 ≤ limit) :
    render_topics now p topics limit = (topics.take limit.toNat).map (rowOf now p) ∧
    (render_topics now p topics limit).length = min limit.toNat topics.length := by
  have he : render_topics now p topics limit
      = (topics.take limit.toNat).map (rowOf now p) := by
    unfold render_topics pySliceTo
    rw [if_pos h]
  refine ⟨he, ?_⟩
  rw [he, List.length_map, List.length_take]

/-- Claim C7 (witness): the amended statement at two topics with
limit 1. -/
theorem c7_render_topics_amended_witness :
    render_topics 0 (fun _ => none) [sampleTopic, sampleTopic2] 1
        = ([sampleTopic, sampleTopic2].take (Int.toNat 1)).map (rowOf 0 (fun _ => none)) ∧
    (render_topics 0 (fun _ => none) [sampleTopic, sampleTopic2] 1).length
        = min (Int.toNat 1) [sampleTopic, sampleTopic2].length :=
  c7_render_topics_amended 0 (fun _ => none) [sampleTopic, sampleTopic2] 1 (by decide)

/-- Claim C8: each pass of the blank-line-collapse loop on a text still
containing `"\n\n\n"` strictly shrinks it, so the loop (run with
length-many passes in the model) reaches a fixpoint free of triple
newlines — the normalizer is total. -/
theorem c8_collapse_terminates :
    (∀ l : List Char, containsTriple l = true → (replaceTriples l).length < l.length) ∧
    (∀ s : String, containsTriple (collapseNl s).data = false) := by
  constructor
  · intro l h
    exact replaceTriples_length_lt h
  · intro s
    show containsTriple (collapseGo s.data.length s.data) = false
    exact collapseGo_no_triple _ _ (Nat.le_refl _)

/-- Claim C8 (witness): the shrink fact at `"\n\n\n"` and the fixpoint
fact at `"a\n\n\n\n\nb"`, via the theorem. -/
theorem c8_collapse_terminates_witness :
    (replaceTriples ['\n', '\n', '\n']).length < ['\n', '\n', '\n'].length ∧
    containsTriple (collapseNl "a\n\n\n\n\nb").data = false :=
  ⟨c8_collapse_terminates.1 ['\n', '\n', '\n'] (by decide),
   c8_collapse_terminates.2 "a\n\n\n\n\nb"⟩

/-- Claim C9: the `n >= 10000` branch of `_format_count` is redundant —
the function extensionally equals the two-case definition. -/
theorem c9_format_count_redundant (n : Int) :
    format_count n = formatCountSimple n := by
  unfold format_count formatCountSimple
  by_cases h1 : 10000 ≤ n
  · rw [if_pos h1, if_pos (by omega : (1000 : Int) ≤ n)]
  · rw [if_neg h1]

/-- Claim C10: a parsed timestamp strictly later than the current
instant renders as the negative elapsed-second count suffixed `s` — the
`secs < 60` branch catches every negative value. -/
theorem c10_relative_time_future (now : Int) (p : String → Option Int)
    (iso : String) (t : Int) (h : iso ≠ "") (hp : p iso = some t) (ht : now < t) :
    relative_time now p iso = toString (now - t) ++ "s" ∧ now - t < 0 := by
  refine ⟨?_, by omega⟩
  unfold relative_time
  rw [if_neg h, hp]
  show (if now - t < 60 then toString (now - t) ++ "s"
    else if now - t < 3600 then toString ((now - t).fdiv 60) ++ "m"
    else if now - t < 86400 then toString ((now - t).fdiv 3600) ++ "h"
    else toString ((now - t).fdiv 86400) ++ "d") = toString (now - t) ++ "s"
  rw [if_pos (by omega : now - t < 60)]

/-- Claim C10 (witness): a timestamp 30 seconds in the future renders
as `"-30s"`, via the theorem. -/
theorem c10_relative_time_future_witness :
    relative_time 0 (fun _ => some 30) "ts" = "-30s" ∧ (0 : Int) - 30 < 0 := by
  have h := c10_relative_time_future 0 (fun _ => some 30) "ts" 30 (by decide) rfl (by decide)
  exact ⟨h.1.trans (by decide), h.2⟩
